import Mathlib

/-!
Shallow embedding of the time-evolution core of the `mhd` solver
(`mhd/simulation.py`): the variable-index registry (`Variables`), the
conserved/primitive state conversions (`cons_to_prim`, `prim_to_cons`),
the CFL timestep rule (`method_compute_timestep`), and the control
structure of `evolve`.

Modelling conventions:
* Machine floats are embedded as exact rationals (`ℚ`); `1e-10` is `1/10^10`.
* A 2-d `numpy` field with a trailing variable axis is a function
  `ℕ → ℕ → ℕ → ℚ` (cell `(i, j)`, variable slot `k`).  All the embedded
  operations are elementwise, so grid extents play no role.
* A Python function that mutates an argument in place is embedded as a
  function returning the pair (mutated argument, return value).
* The equation-of-state module `mhd/eos.py` is not part of the provided
  sources; it is modelled from the spec (§6) as the gamma-law pair.
-/

namespace MHD

/-- A cell-centered field with a trailing variable axis: `A i j k` is the
value of variable slot `k` in cell `(i, j)`. -/
abbrev Arr : Type := ℕ → ℕ → ℕ → ℚ

/-- The density floor `smallrho = 1e-10` used by both conversions. -/
def smallrho : ℚ := 1 / 10 ^ 10

/-- The pressure floor `smallp = 1e-10` used by both conversions. -/
def smallp : ℚ := 1 / 10 ^ 10

/-- Modelled from the spec: `mhd/eos.py` is absent from the sources; §6
specifies `pressure(γ, ρ, e) → p` with `eos.gamma` the adiabatic index,
consistent inverse of `rhoe`.  Gamma-law: `p = ρ e (γ - 1)`. -/
def eosPres (gamma rho e : ℚ) : ℚ := rho * e * (gamma - 1)

/-- Modelled from the spec: `mhd/eos.py` is absent from the sources; §6
specifies `internal_energy_density(γ, p) → ρe`, consistent inverse of
`pres`.  Gamma-law: `ρe = p / (γ - 1)`. -/
def eosRhoe (gamma p : ℚ) : ℚ := p / (gamma - 1)

/-- The container class `Variables` of `mhd/simulation.py` (lines 19-59):
slot indices for the conserved and primitive layouts, computed from the
ordered list of registered variable names (`ccd.names`).  The conserved
indices come from `ccd.names.index(...)`; the primitive indices are the
fixed constants `0..5` with the first auxiliary slot at `6`.  `irhox` and
`ix` are `-1` sentinels when there are no auxiliary variables, hence the
`ℤ` type mirroring Python integers. -/
structure Variables where
  nvar : ℕ
  idens : ℕ
  ixmom : ℕ
  iymom : ℕ
  iener : ℕ
  ixmag : ℕ
  iymag : ℕ
  naux : ℤ
  irhox : ℤ
  nq : ℤ
  irho : ℕ
  iu : ℕ
  iv : ℕ
  ip : ℕ
  ibx : ℕ
  iby : ℕ
  ix : ℤ

/-- Embedding of `Variables.__init__(self, ccd)`, where `ccd.names` is the ordered list of
registered variable names.  `list.index` is embedded as `List.indexOf`
(all lookups in the claims are of names actually present). -/
def Variables.ofNames (names : List String) : Variables :=
  let nvar : ℕ := names.length
  let naux : ℤ := (nvar : ℤ) - 6
  { nvar := nvar
    idens := names.indexOf "density"
    ixmom := names.indexOf "x-momentum"
    iymom := names.indexOf "y-momentum"
    iener := names.indexOf "energy"
    ixmag := names.indexOf "x-magnetic-field"
    iymag := names.indexOf "y-magnetic-field"
    naux := naux
    irhox := if naux > 0 then 6 else -1
    nq := 6 + naux
    irho := 0
    iu := 1
    iv := 2
    ip := 3
    ibx := 4
    iby := 5
    ix := if naux > 0 then 6 else -1 }

/-- The six mandatory field names, in the registration order of
`Simulation.initialize` (lines 143-148). -/
def mandatoryNames : List String :=
  ["density", "x-momentum", "y-momentum", "energy",
   "x-magnetic-field", "y-magnetic-field"]

/-- Embedding of `cons_to_prim(U, gamma, ivars, myg)` (lines 62-91).  Returns the pair
(the array `U` of the caller after the in-place density clamp of line 70, the
fresh primitive array `q`).  The primitive slots written by the source are
`irho, iu, iv, ibx, iby, ip` and, when `naux > 0`, the auxiliary slots
`ix .. ix+naux-1`; these slots are pairwise distinct for every registry
built by `Variables.ofNames` (`irho..iby` are the constants `0..5`, `ix`
is `6`), so the sequence of elementwise writes is embedded as one
slot-dispatching function; unwritten slots keep the scratch value `0`. -/
def cons_to_prim (U : Arr) (gamma : ℚ) (ivars : Variables) : Arr × Arr :=
  let U' : Arr := fun i j k =>
    if k = ivars.idens then max (U i j ivars.idens) smallrho else U i j k
  let q : Arr := fun i j k =>
    let rho := max (U' i j ivars.idens) smallrho
    let u := U' i j ivars.ixmom / rho
    let v := U' i j ivars.iymom / rho
    let bx := U' i j ivars.ixmag
    let by' := U' i j ivars.iymag
    let e := (U' i j ivars.iener - 1/2 * rho * (u ^ 2 + v ^ 2)
              - 1/2 * (bx ^ 2 + by' ^ 2)) / rho
    if 0 < ivars.naux ∧ ivars.ix ≤ (k : ℤ) ∧ (k : ℤ) < ivars.ix + ivars.naux then
      U' i j (ivars.irhox + ((k : ℤ) - ivars.ix)).toNat / rho
    else if k = ivars.ip then max smallp (eosPres gamma rho e)
    else if k = ivars.iby then by'
    else if k = ivars.ibx then bx
    else if k = ivars.iv then v
    else if k = ivars.iu then u
    else if k = ivars.irho then rho
    else 0
  (U', q)

/-- Embedding of `prim_to_cons(q, gamma, ivars, myg)` (lines 94-119).  Returns the pair
(the array `q` of the caller, which the source never writes to, and the fresh
conserved array `U`).  Conserved slots written: `idens, ixmom, iymom,
ixmag, iymag, iener` and, when `naux > 0`, `irhox .. irhox+naux-1`;
pairwise distinct for every registry built by `Variables.ofNames` from
the mandatory names, so the writes are embedded as one slot dispatch.
Note line 117 multiplies by the raw `q[irho]`, not the clamped density. -/
def prim_to_cons (q : Arr) (gamma : ℚ) (ivars : Variables) : Arr × Arr :=
  let U : Arr := fun i j k =>
    let dens := max (q i j ivars.irho) smallrho
    if 0 < ivars.naux ∧ ivars.irhox ≤ (k : ℤ) ∧ (k : ℤ) < ivars.irhox + ivars.naux then
      q i j (ivars.ix + ((k : ℤ) - ivars.irhox)).toNat * q i j ivars.irho
    else if k = ivars.iener then
      eosRhoe gamma (max smallp (q i j ivars.ip))
        + 1/2 * q i j ivars.irho * ((q i j ivars.iu) ^ 2 + (q i j ivars.iv) ^ 2)
        + 1/2 * ((q i j ivars.ibx) ^ 2 + (q i j ivars.iby) ^ 2)
    else if k = ivars.iymag then q i j ivars.iby
    else if k = ivars.ixmag then q i j ivars.ibx
    else if k = ivars.iymom then q i j ivars.iv * dens
    else if k = ivars.ixmom then q i j ivars.iu * dens
    else if k = ivars.idens then dens
    else 0
  (q, U)

/-- Per-cell data read by `method_compute_timestep`: the velocity
components and the fast-magnetosonic speeds in each direction. -/
structure Cell where
  u : ℚ
  v : ℚ
  Cfx : ℚ
  Cfy : ℚ
  deriving DecidableEq

/-- The `.min()` reduction of `numpy` over a (nonempty) flattened array, embedded on the
list of cell values.  (On an empty array `numpy` raises; the value at `[]`
here is junk and every theorem that uses it assumes a nonempty list.) -/
def listMin : List ℚ → ℚ
  | [] => 0
  | [a] => a
  | a :: b :: t => min a (listMin (b :: t))

/-- Embedding of `Simulation.method_compute_timestep` (lines 195-222): the returned
`self.dt`.  `cells` carries the cell-centered velocities and
fast-magnetosonic speeds over the whole domain. -/
def method_compute_timestep (cfl fix_dt dx dy : ℚ) (cells : List Cell) : ℚ :=
  let xtmp := cells.map fun c => dx / (|c.u| + c.Cfx)
  let ytmp := cells.map fun c => dy / (|c.v| + c.Cfy)
  cfl * min (min (listMin xtmp) (listMin ytmp)) fix_dt

/-- The simulation state touched by the tail of `Simulation.evolve`:
clock `t`, current timestep `dt`, step counter `n`, the timestep
configuration, and the (finalized) cell data the next timestep is
computed from. -/
structure SimState where
  t : ℚ
  dt : ℚ
  n : ℕ
  cfl : ℚ
  fix_dt : ℚ
  dx : ℚ
  dy : ℚ
  cells : List Cell
  deriving DecidableEq

/-- Lines 269-271 of `Simulation.evolve`:
`self.method_compute_timestep()` overwrites `self.dt` with the next
admissible timestep computed from the finalized state, and only then does
`self.cc_data.t += self.dt` and `self.n += 1` run — so the clock is
advanced by the freshly recomputed `dt`, not by the `dt` the step was
taken with. -/
def evolve_advance_clock (st : SimState) : SimState :=
  let dt' := method_compute_timestep st.cfl st.fix_dt st.dx st.dy st.cells
  { st with dt := dt', t := st.t + dt', n := st.n + 1 }

/-- A concrete state at the end of a step taken with `dt = 1/10`, whose
finalized fields make the recomputed timestep `1/20`. -/
def stBug : SimState :=
  { t := 0, dt := 1 / 10, n := 0, cfl := 1 / 2, fix_dt := 1,
    dx := 1 / 10, dy := 1 / 10, cells := [⟨0, 0, 1, 1⟩] }

/-- The alphabet of collaborator calls made by `Simulation.evolve`
(lines 230-273), in the order the source makes them: per-stage calls
carry the stage index `s`. -/
inductive Ev where
  | getStageStart (s : ℕ)
  | fillBCcc (s : ℕ)
  | fillBCfcx (s : ℕ)
  | fillBCfcy (s : ℕ)
  | substepEval (s : ℕ)
  | storeIncrement (s : ℕ)
  | computeFinalUpdate
  | updateParticles
  | fillBCccFinal
  | fillBCfcxFinal
  | fillBCfcyFinal
  | computeTimestep
  | advanceClock
  | incrementStep
  deriving DecidableEq

/-- One iteration of the stage loop (lines 245-251): fetch the
working states of the stage, fill ghost cells on all three, evaluate the substep,
store the increment tagged with the stage index. -/
def stageBlock (s : ℕ) : List Ev :=
  [.getStageStart s, .fillBCcc s, .fillBCfcx s, .fillBCfcy s,
   .substepEval s, .storeIncrement s]

/-- The stage loop `for s in range(n)` unrolled: blocks for stages
`0 .. n-1` in order. -/
def stagesTrace : ℕ → List Ev
  | 0 => []
  | n + 1 => stagesTrace n ++ stageBlock n

/-- The calls after the stage loop (lines 253-271): the single final
update, the optional particle advance, the three ghost-cell re-fills,
the timestep recomputation, and the clock/counter updates. -/
def evolveTail (particles : Bool) : List Ev :=
  Ev.computeFinalUpdate ::
    ((if particles then [Ev.updateParticles] else []) ++
     [Ev.fillBCccFinal, Ev.fillBCfcxFinal, Ev.fillBCfcyFinal,
      Ev.computeTimestep, Ev.advanceClock, Ev.incrementStep])

/-- The full collaborator-call trace of one `evolve` invocation with
`nstages` stages, with or without an attached particle subsystem. -/
def evolveTrace (nstages : ℕ) (particles : Bool) : List Ev :=
  stagesTrace nstages ++ evolveTail particles

/-- The index registry built by `Simulation.initialize`: the six mandatory
fields registered first, then the `extras` (passively advected scalars). -/
def ivStd (extras : List String) : Variables :=
  Variables.ofNames (mandatoryNames ++ extras)

/-- A uniform, physically valid primitive test state: `ρ = 1`, `u = v = 0`,
`p = 1`, `Bx = By = 0`, one auxiliary scalar `X = 1/2`. -/
def qUnit : Arr := fun _ _ k =>
  if k = 0 then 1 else if k = 3 then 1 else if k = 6 then 1 / 2 else 0

/-- A conserved test state whose density slot is `1e-15`, below the floor,
and all other slots `0`. -/
def UTiny : Arr := fun _ _ k => if k = 0 then 1 / 10 ^ 15 else 0

/-- A primitive test state with zero density and auxiliary scalar `1`. -/
def qZeroRho : Arr := fun _ _ k => if k = 6 then 1 else 0

/-! ### Facts about the standard registry -/

theorem ivStd_idens (e : List String) : (ivStd e).idens = 0 := rfl

theorem ivStd_ixmom (e : List String) : (ivStd e).ixmom = 1 := rfl

theorem ivStd_iymom (e : List String) : (ivStd e).iymom = 2 := rfl

theorem ivStd_iener (e : List String) : (ivStd e).iener = 3 := rfl

theorem ivStd_ixmag (e : List String) : (ivStd e).ixmag = 4 := rfl

theorem ivStd_iymag (e : List String) : (ivStd e).iymag = 5 := rfl

theorem ivStd_irho (e : List String) : (ivStd e).irho = 0 := rfl

theorem ivStd_iu (e : List String) : (ivStd e).iu = 1 := rfl

theorem ivStd_iv (e : List String) : (ivStd e).iv = 2 := rfl

theorem ivStd_ip (e : List String) : (ivStd e).ip = 3 := rfl

theorem ivStd_ibx (e : List String) : (ivStd e).ibx = 4 := rfl

theorem ivStd_iby (e : List String) : (ivStd e).iby = 5 := rfl

theorem ivStd_naux (e : List String) : (ivStd e).naux = (e.length : ℤ) := by
  simp only [ivStd, Variables.ofNames, mandatoryNames, List.length_append,
    List.length_cons, List.length_nil]
  omega

theorem ivStd_nq (e : List String) : (ivStd e).nq = 6 + (e.length : ℤ) := by
  simp only [ivStd, Variables.ofNames, mandatoryNames, List.length_append,
    List.length_cons, List.length_nil]
  omega

theorem ivStd_ix (e : List String) (h : e ≠ []) : (ivStd e).ix = 6 := by
  have hl : 0 < e.length := List.length_pos.mpr h
  simp only [ivStd, Variables.ofNames, mandatoryNames, List.length_append,
    List.length_cons, List.length_nil]
  split <;> omega

theorem ivStd_irhox (e : List String) (h : e ≠ []) : (ivStd e).irhox = 6 := by
  have hl : 0 < e.length := List.length_pos.mpr h
  simp only [ivStd, Variables.ofNames, mandatoryNames, List.length_append,
    List.length_cons, List.length_nil]
  split <;> omega

/-- The guard of the auxiliary loop of `cons_to_prim`, for the standard
registry, is exactly "slot `k` is one of the auxiliary slots". -/
theorem ivStd_aux_cond_q (e : List String) (k : ℕ) :
    (0 < (ivStd e).naux ∧ (ivStd e).ix ≤ (k : ℤ) ∧
        (k : ℤ) < (ivStd e).ix + (ivStd e).naux) ↔
      (6 ≤ k ∧ (k : ℤ) < 6 + e.length) := by
  rcases eq_or_ne e [] with rfl | h
  · simp only [ivStd_naux, List.length_nil, Nat.cast_zero]
    omega
  · rw [ivStd_naux, ivStd_ix e h]
    omega

/-- The guard of the auxiliary loop of `prim_to_cons`, for the standard
registry, is exactly "slot `k` is one of the auxiliary slots". -/
theorem ivStd_aux_cond_U (e : List String) (k : ℕ) :
    (0 < (ivStd e).naux ∧ (ivStd e).irhox ≤ (k : ℤ) ∧
        (k : ℤ) < (ivStd e).irhox + (ivStd e).naux) ↔
      (6 ≤ k ∧ (k : ℤ) < 6 + e.length) := by
  rcases eq_or_ne e [] with rfl | h
  · simp only [ivStd_naux, List.length_nil, Nat.cast_zero]
    omega
  · rw [ivStd_naux, ivStd_irhox e h]
    omega

/-- Claim C6: for a registry built from exactly the six mandatory names,
`irhox` and `ix` are the `-1` sentinel and `naux = 0`; for any registry
built from at least seven names, `ix = 6` and `naux = nvar - 6`. -/
theorem claim_C6_index_map :
    ((Variables.ofNames mandatoryNames).irhox = -1 ∧
     (Variables.ofNames mandatoryNames).ix = -1 ∧
     (Variables.ofNames mandatoryNames).naux = 0) ∧
    ∀ names : List String, 7 ≤ names.length →
      (Variables.ofNames names).ix = 6 ∧
      (Variables.ofNames names).naux = (names.length : ℤ) - 6 := by
  constructor
  · refine ⟨?_, ?_, ?_⟩ <;> simp [Variables.ofNames, mandatoryNames]
  · intro names h
    refine ⟨?_, rfl⟩
    simp only [Variables.ofNames]
    split <;> omega

/-- Witness for C6 at a seven-name registry. -/
theorem claim_C6_index_map_witness :
    7 ≤ (mandatoryNames ++ ["fuel"]).length ∧
    ((Variables.ofNames (mandatoryNames ++ ["fuel"])).ix = 6 ∧
     (Variables.ofNames (mandatoryNames ++ ["fuel"])).naux =
       ((mandatoryNames ++ ["fuel"]).length : ℤ) - 6) :=
  ⟨by decide, claim_C6_index_map.2 (mandatoryNames ++ ["fuel"]) (by decide)⟩

/-! ### Facts about `listMin` -/

theorem listMin_cons (a : ℚ) (l : List ℚ) (h : l ≠ []) :
    listMin (a :: l) = min a (listMin l) := by
  cases l with
  | nil => exact absurd rfl h
  | cons b t => rfl

theorem listMin_mem (l : List ℚ) (h : l ≠ []) : listMin l ∈ l := by
  induction l with
  | nil => exact absurd rfl h
  | cons a t ih =>
    cases t with
    | nil => simp [listMin]
    | cons b t' =>
      rw [listMin_cons a (b :: t') (by simp)]
      rcases min_choice a (listMin (b :: t')) with hm | hm
      · rw [hm]; exact List.mem_cons_self a (b :: t')
      · rw [hm]; exact List.mem_cons_of_mem a (ih (by simp))

theorem listMin_le (l : List ℚ) (x : ℚ) (hx : x ∈ l) : listMin l ≤ x := by
  induction l with
  | nil => simp at hx
  | cons a t ih =>
    cases t with
    | nil =>
      have : x = a := List.mem_singleton.mp hx
      subst this
      exact le_refl _
    | cons b t' =>
      rw [listMin_cons a (b :: t') (by simp)]
      rcases List.mem_cons.mp hx with rfl | hx'
      · exact min_le_left _ _
      · exact le_trans (min_le_right _ _) (ih hx')

theorem listMin_eq (l : List ℚ) (m : ℚ) (hmem : m ∈ l)
    (hle : ∀ x ∈ l, m ≤ x) : listMin l = m :=
  le_antisymm (listMin_le l m hmem)
    (hle _ (listMin_mem l (List.ne_nil_of_mem hmem)))

theorem listMin_append (l1 l2 : List ℚ) (h2 : l2 ≠ []) :
    l1 ≠ [] → listMin (l1 ++ l2) = min (listMin l1) (listMin l2) := by
  induction l1 with
  | nil => intro h; exact absurd rfl h
  | cons a t ih =>
    intro _
    cases t with
    | nil =>
      rw [List.singleton_append, listMin_cons a l2 h2]
      exact rfl
    | cons b t' =>
      rw [List.cons_append, listMin_cons a ((b :: t') ++ l2) (by simp),
        ih (by simp), listMin_cons a (b :: t') (by simp), min_assoc]

theorem listMin_pos (l : List ℚ) (h : l ≠ []) (hp : ∀ x ∈ l, 0 < x) :
    0 < listMin l :=
  hp _ (listMin_mem l h)

theorem map_ne_nil {α β : Type} (f : α → β) (l : List α) (h : l ≠ []) :
    l.map f ≠ [] := by
  cases l with
  | nil => exact absurd rfl h
  | cons a t => simp

/-! ### The timestep rule -/

/-- Claim C3: `method_compute_timestep` returns
`cfl * min(min_cells dx/(|u|+Cfx), min_cells dy/(|v|+Cfy), fix_dt)`, the
directional minima being genuine minima over the whole domain; and in the
scenario `cfl = 1/2`, `fix_dt = 1`, raw directional minimum `= 1/5`, the
result is `1/10`. -/
theorem claim_C3_timestep_rule (cfl fix_dt dx dy : ℚ) (cells : List Cell)
    (hne : cells ≠ []) :
    (∃ mx ∈ cells.map (fun c => dx / (|c.u| + c.Cfx)),
       ∃ my ∈ cells.map (fun c => dy / (|c.v| + c.Cfy)),
         (∀ x ∈ cells.map (fun c => dx / (|c.u| + c.Cfx)), mx ≤ x) ∧
         (∀ y ∈ cells.map (fun c => dy / (|c.v| + c.Cfy)), my ≤ y) ∧
         method_compute_timestep cfl fix_dt dx dy cells =
           cfl * min (min mx my) fix_dt) ∧
    (∀ m : ℚ,
       m ∈ cells.map (fun c => dx / (|c.u| + c.Cfx)) ++
             cells.map (fun c => dy / (|c.v| + c.Cfy)) →
       (∀ x ∈ cells.map (fun c => dx / (|c.u| + c.Cfx)) ++
                cells.map (fun c => dy / (|c.v| + c.Cfy)), m ≤ x) →
       m = 1 / 5 → cfl = 1 / 2 → fix_dt = 1 →
       method_compute_timestep cfl fix_dt dx dy cells = 1 / 10) := by
  have hx := map_ne_nil (fun c => dx / (|c.u| + c.Cfx)) cells hne
  have hy := map_ne_nil (fun c => dy / (|c.v| + c.Cfy)) cells hne
  constructor
  · refine ⟨listMin (cells.map fun c => dx / (|c.u| + c.Cfx)), ?_,
      listMin (cells.map fun c => dy / (|c.v| + c.Cfy)), ?_, ?_, ?_, ?_⟩
    · exact listMin_mem _ hx
    · exact listMin_mem _ hy
    · exact fun x hx' => listMin_le _ x hx'
    · exact fun y hy' => listMin_le _ y hy'
    · simp only [method_compute_timestep]
  · intro m hmem hle hm hcfl hfd
    subst hm hcfl hfd
    have h1 : listMin (cells.map (fun c => dx / (|c.u| + c.Cfx)) ++
        cells.map (fun c => dy / (|c.v| + c.Cfy))) = 1 / 5 :=
      listMin_eq _ _ hmem hle
    rw [listMin_append _ _ hy hx] at h1
    show (1 / 2 : ℚ) *
        min (min (listMin (cells.map fun c => dx / (|c.u| + c.Cfx)))
          (listMin (cells.map fun c => dy / (|c.v| + c.Cfy)))) 1 = 1 / 10
    rw [h1]
    norm_num

/-- Witness for C3: one cell with `u = v = 0`, `Cfx = Cfy = 1`,
`dx = dy = 1/5`. -/
theorem claim_C3_timestep_rule_witness :
    ([(⟨0, 0, 1, 1⟩ : Cell)] ≠ []) ∧
    method_compute_timestep (1 / 2) 1 (1 / 5) (1 / 5) [⟨0, 0, 1, 1⟩] = 1 / 10 := by
  refine ⟨by simp, ?_⟩
  refine (claim_C3_timestep_rule (1 / 2) 1 (1 / 5) (1 / 5) [⟨0, 0, 1, 1⟩]
    (by simp)).2 (1 / 5) ?_ ?_ rfl rfl rfl
  · norm_num [Cell.u, Cell.v, Cell.Cfx, Cell.Cfy]
  · intro x hx
    simp only [List.map_cons, List.map_nil, List.cons_append, List.nil_append,
      List.mem_cons, List.mem_singleton] at hx
    rcases hx with rfl | rfl | h
    · norm_num
    · norm_num
    · simp at h

/-- Claim C7: with positive grid spacings, a positive fixed bound and
strictly positive wave speeds everywhere, the timestep is strictly
monotone in the CFL number, and for any CFL number in `(0, 1]` it never
exceeds `fix_dt`. -/
theorem claim_C7_timestep_monotone (c1 c2 fix_dt dx dy : ℚ) (cells : List Cell)
    (hne : cells ≠ []) (hdx : 0 < dx) (hdy : 0 < dy) (hfd : 0 < fix_dt)
    (hCf : ∀ c ∈ cells, 0 < c.Cfx ∧ 0 < c.Cfy)
    (h1 : 0 < c1) (h12 : c1 < c2) (h2 : c2 ≤ 1) :
    method_compute_timestep c1 fix_dt dx dy cells <
      method_compute_timestep c2 fix_dt dx dy cells ∧
    ∀ c : ℚ, 0 < c → c ≤ 1 →
      method_compute_timestep c fix_dt dx dy cells ≤ fix_dt := by
  have hx := map_ne_nil (fun c => dx / (|c.u| + c.Cfx)) cells hne
  have hy := map_ne_nil (fun c => dy / (|c.v| + c.Cfy)) cells hne
  have hxpos : 0 < listMin (cells.map fun c => dx / (|c.u| + c.Cfx)) := by
    refine listMin_pos _ hx ?_
    intro x hx'
    rcases List.mem_map.mp hx' with ⟨c, hc, rfl⟩
    exact div_pos hdx (add_pos_of_nonneg_of_pos (abs_nonneg _) (hCf c hc).1)
  have hypos : 0 < listMin (cells.map fun c => dy / (|c.v| + c.Cfy)) := by
    refine listMin_pos _ hy ?_
    intro y hy'
    rcases List.mem_map.mp hy' with ⟨c, hc, rfl⟩
    exact div_pos hdy (add_pos_of_nonneg_of_pos (abs_nonneg _) (hCf c hc).2)
  have hM : 0 < min (min (listMin (cells.map fun c => dx / (|c.u| + c.Cfx)))
      (listMin (cells.map fun c => dy / (|c.v| + c.Cfy)))) fix_dt :=
    lt_min (lt_min hxpos hypos) hfd
  constructor
  · exact mul_lt_mul_of_pos_right h12 hM
  · intro c hc hc1
    show c * min (min (listMin (cells.map fun c => dx / (|c.u| + c.Cfx)))
        (listMin (cells.map fun c => dy / (|c.v| + c.Cfy)))) fix_dt ≤ fix_dt
    calc c * min (min (listMin (cells.map fun c => dx / (|c.u| + c.Cfx)))
          (listMin (cells.map fun c => dy / (|c.v| + c.Cfy)))) fix_dt
        ≤ min (min (listMin (cells.map fun c => dx / (|c.u| + c.Cfx)))
            (listMin (cells.map fun c => dy / (|c.v| + c.Cfy)))) fix_dt :=
          mul_le_of_le_one_left hM.le hc1
      _ ≤ fix_dt := min_le_right _ _

/-- Witness for C7: one cell with unit wave speeds, `dx = dy = 1`,
`fix_dt = 1`, CFL numbers `1/4 < 1/2`. -/
theorem claim_C7_timestep_monotone_witness :
    (([(⟨0, 0, 1, 1⟩ : Cell)] : List Cell) ≠ []) ∧ (0 : ℚ) < 1 ∧ (0 : ℚ) < 1 ∧
    (0 : ℚ) < 1 ∧ (∀ c ∈ [(⟨0, 0, 1, 1⟩ : Cell)], 0 < c.Cfx ∧ 0 < c.Cfy) ∧
    (0 : ℚ) < 1 / 4 ∧ (1 / 4 : ℚ) < 1 / 2 ∧ (1 / 2 : ℚ) ≤ 1 ∧
    (method_compute_timestep (1 / 4) 1 1 1 [⟨0, 0, 1, 1⟩] <
       method_compute_timestep (1 / 2) 1 1 1 [⟨0, 0, 1, 1⟩] ∧
     ∀ c : ℚ, 0 < c → c ≤ 1 →
       method_compute_timestep c 1 1 1 [⟨0, 0, 1, 1⟩] ≤ 1) := by
  have hCf : ∀ c ∈ [(⟨0, 0, 1, 1⟩ : Cell)], 0 < c.Cfx ∧ 0 < c.Cfy := by
    intro c hc
    rcases List.mem_singleton.mp hc with rfl
    exact ⟨by norm_num, by norm_num⟩
  exact ⟨by simp, by norm_num, by norm_num, by norm_num, hCf,
    by norm_num, by norm_num, by norm_num,
    claim_C7_timestep_monotone (1 / 4) (1 / 2) 1 1 1 [⟨0, 0, 1, 1⟩]
      (by simp) (by norm_num) (by norm_num) (by norm_num) hCf
      (by norm_num) (by norm_num) (by norm_num)⟩

/-! ### The end of `evolve`: timestep recomputation, clock, counter -/

/-- Claim C2 (code bug evidence): at `stBug` the step was taken with
`dt = 1/10`, the recomputed timestep is `1/20`, and the clock is advanced
by the recomputed `1/20` — not by the `1/10` the step was taken with.
The counter part of the claim does hold: `n` increments by one. -/
theorem claim_C2_clock_bug :
    (evolve_advance_clock stBug).n = stBug.n + 1 ∧
    method_compute_timestep stBug.cfl stBug.fix_dt stBug.dx stBug.dy stBug.cells
      = 1 / 20 ∧
    (evolve_advance_clock stBug).t = stBug.t + 1 / 20 ∧
    stBug.t + stBug.dt = 1 / 10 ∧
    (evolve_advance_clock stBug).t ≠ stBug.t + stBug.dt := by
  have hdt : method_compute_timestep stBug.cfl stBug.fix_dt stBug.dx stBug.dy
      stBug.cells = 1 / 20 := by
    simp only [stBug, method_compute_timestep, List.map_cons, List.map_nil, listMin]
    norm_num
  refine ⟨rfl, hdt, ?_, by norm_num [stBug], ?_⟩
  · show stBug.t + method_compute_timestep stBug.cfl stBug.fix_dt stBug.dx
      stBug.dy stBug.cells = stBug.t + 1 / 20
    rw [hdt]
  · show stBug.t + method_compute_timestep stBug.cfl stBug.fix_dt stBug.dx
      stBug.dy stBug.cells ≠ stBug.t + stBug.dt
    rw [hdt]
    norm_num [stBug]

/-! ### The `evolve` stage loop as a call trace -/

theorem length_stagesTrace (n : ℕ) : (stagesTrace n).length = 6 * n := by
  induction n with
  | zero => rfl
  | succ m ih =>
    simp only [stagesTrace, List.length_append, ih, stageBlock, List.length_cons,
      List.length_nil]
    omega

theorem stagesTrace_getElem? (n s : ℕ) (hs : s < n) (r : ℕ) (hr : r < 6) :
    (stagesTrace n)[6 * s + r]? = (stageBlock s)[r]? := by
  induction n with
  | zero => omega
  | succ m ih =>
    rcases Nat.lt_or_ge s m with hlt | hge
    · rw [stagesTrace, List.getElem?_append_left (by rw [length_stagesTrace]; omega),
        ih hlt]
    · have hsm : s = m := by omega
      subst hsm
      rw [stagesTrace, List.getElem?_append_right (by rw [length_stagesTrace]; omega),
        length_stagesTrace]
      congr 1
      omega

theorem stagesTrace_count_final (n : ℕ) :
    (stagesTrace n).count Ev.computeFinalUpdate = 0 := by
  induction n with
  | zero => rfl
  | succ m ih =>
    rw [stagesTrace, List.count_append, ih]
    simp [stageBlock, List.count_cons]

/-- Claim C9: in every `evolve` call the stages run strictly in order
`0 .. nstages-1`; within stage `s` the ghost-cell fills of the
cell-centered and both face-centered working states all precede the
substep evaluation, whose increment is then stored tagged `s`; and
`compute_final_update` is called exactly once, after all stages have
stored their increments (it sits at position `6·nstages`, past every
stage block). -/
theorem claim_C9_stage_ordering (nstages : ℕ) (particles : Bool) (s : ℕ)
    (hs : s < nstages) :
    (evolveTrace nstages particles)[6 * s]? = some (Ev.getStageStart s) ∧
    (evolveTrace nstages particles)[6 * s + 1]? = some (Ev.fillBCcc s) ∧
    (evolveTrace nstages particles)[6 * s + 2]? = some (Ev.fillBCfcx s) ∧
    (evolveTrace nstages particles)[6 * s + 3]? = some (Ev.fillBCfcy s) ∧
    (evolveTrace nstages particles)[6 * s + 4]? = some (Ev.substepEval s) ∧
    (evolveTrace nstages particles)[6 * s + 5]? = some (Ev.storeIncrement s) ∧
    (evolveTrace nstages particles)[6 * nstages]? = some Ev.computeFinalUpdate ∧
    (evolveTrace nstages particles).count Ev.computeFinalUpdate = 1 := by
  have hstage : ∀ r : ℕ, r < 6 →
      (evolveTrace nstages particles)[6 * s + r]? = (stageBlock s)[r]? := by
    intro r hr
    rw [evolveTrace, List.getElem?_append_left (by rw [length_stagesTrace]; omega),
      stagesTrace_getElem? nstages s hs r hr]
  refine ⟨?_, ?_, ?_, ?_, ?_, ?_, ?_, ?_⟩
  · simpa using hstage 0 (by omega)
  · exact hstage 1 (by omega)
  · exact hstage 2 (by omega)
  · exact hstage 3 (by omega)
  · exact hstage 4 (by omega)
  · exact hstage 5 (by omega)
  · rw [evolveTrace, List.getElem?_append_right (length_stagesTrace nstages).le,
      length_stagesTrace]
    simp [evolveTail]
  · rw [evolveTrace, List.count_append, stagesTrace_count_final]
    cases particles <;> simp [evolveTail, List.count_cons, List.count_append]

/-- Witness for C9 at a two-stage integrator, stage `0`. -/
theorem claim_C9_stage_ordering_witness :
    0 < 2 ∧
    ((evolveTrace 2 false)[6 * 0]? = some (Ev.getStageStart 0) ∧
     (evolveTrace 2 false)[6 * 0 + 1]? = some (Ev.fillBCcc 0) ∧
     (evolveTrace 2 false)[6 * 0 + 2]? = some (Ev.fillBCfcx 0) ∧
     (evolveTrace 2 false)[6 * 0 + 3]? = some (Ev.fillBCfcy 0) ∧
     (evolveTrace 2 false)[6 * 0 + 4]? = some (Ev.substepEval 0) ∧
     (evolveTrace 2 false)[6 * 0 + 5]? = some (Ev.storeIncrement 0) ∧
     (evolveTrace 2 false)[6 * 2]? = some Ev.computeFinalUpdate ∧
     (evolveTrace 2 false).count Ev.computeFinalUpdate = 1) :=
  ⟨by omega, claim_C9_stage_ordering 2 false 0 (by omega)⟩

/-! ### Slot evaluation of the conversions under the standard registry -/

theorem p2c_std_dens (e : List String) (q : Arr) (γ : ℚ) (i j : ℕ) :
    (prim_to_cons q γ (ivStd e)).2 i j 0 = max (q i j 0) smallrho := by
  simp only [prim_to_cons, ivStd_aux_cond_U, ivStd_idens, ivStd_ixmom, ivStd_iymom,
    ivStd_iener, ivStd_ixmag, ivStd_iymag, ivStd_irho, ivStd_iu, ivStd_iv, ivStd_ip,
    ivStd_ibx, ivStd_iby]
  norm_num

theorem p2c_std_xmom (e : List String) (q : Arr) (γ : ℚ) (i j : ℕ) :
    (prim_to_cons q γ (ivStd e)).2 i j 1 = q i j 1 * max (q i j 0) smallrho := by
  simp only [prim_to_cons, ivStd_aux_cond_U, ivStd_idens, ivStd_ixmom, ivStd_iymom,
    ivStd_iener, ivStd_ixmag, ivStd_iymag, ivStd_irho, ivStd_iu, ivStd_iv, ivStd_ip,
    ivStd_ibx, ivStd_iby]
  norm_num

theorem p2c_std_ymom (e : List String) (q : Arr) (γ : ℚ) (i j : ℕ) :
    (prim_to_cons q γ (ivStd e)).2 i j 2 = q i j 2 * max (q i j 0) smallrho := by
  simp only [prim_to_cons, ivStd_aux_cond_U, ivStd_idens, ivStd_ixmom, ivStd_iymom,
    ivStd_iener, ivStd_ixmag, ivStd_iymag, ivStd_irho, ivStd_iu, ivStd_iv, ivStd_ip,
    ivStd_ibx, ivStd_iby]
  norm_num

theorem p2c_std_ener (e : List String) (q : Arr) (γ : ℚ) (i j : ℕ) :
    (prim_to_cons q γ (ivStd e)).2 i j 3 =
      eosRhoe γ (max smallp (q i j 3))
        + 1 / 2 * q i j 0 * ((q i j 1) ^ 2 + (q i j 2) ^ 2)
        + 1 / 2 * ((q i j 4) ^ 2 + (q i j 5) ^ 2) := by
  simp only [prim_to_cons, ivStd_aux_cond_U, ivStd_idens, ivStd_ixmom, ivStd_iymom,
    ivStd_iener, ivStd_ixmag, ivStd_iymag, ivStd_irho, ivStd_iu, ivStd_iv, ivStd_ip,
    ivStd_ibx, ivStd_iby]
  norm_num

theorem p2c_std_xmag (e : List String) (q : Arr) (γ : ℚ) (i j : ℕ) :
    (prim_to_cons q γ (ivStd e)).2 i j 4 = q i j 4 := by
  simp only [prim_to_cons, ivStd_aux_cond_U, ivStd_idens, ivStd_ixmom, ivStd_iymom,
    ivStd_iener, ivStd_ixmag, ivStd_iymag, ivStd_irho, ivStd_iu, ivStd_iv, ivStd_ip,
    ivStd_ibx, ivStd_iby]
  norm_num

theorem p2c_std_ymag (e : List String) (q : Arr) (γ : ℚ) (i j : ℕ) :
    (prim_to_cons q γ (ivStd e)).2 i j 5 = q i j 5 := by
  simp only [prim_to_cons, ivStd_aux_cond_U, ivStd_idens, ivStd_ixmom, ivStd_iymom,
    ivStd_iener, ivStd_ixmag, ivStd_iymag, ivStd_irho, ivStd_iu, ivStd_iv, ivStd_ip,
    ivStd_ibx, ivStd_iby]
  norm_num

theorem p2c_std_aux (e : List String) (q : Arr) (γ : ℚ) (i j k : ℕ)
    (h6 : 6 ≤ k) (hk : (k : ℤ) < 6 + e.length) :
    (prim_to_cons q γ (ivStd e)).2 i j k = q i j k * q i j 0 := by
  have he : e ≠ [] := by
    intro h
    subst h
    simp only [List.length_nil, Nat.cast_zero] at hk
    omega
  have htn : ((ivStd e).ix + ((k : ℤ) - (ivStd e).irhox)).toNat = k := by
    rw [ivStd_ix e he, ivStd_irhox e he]
    omega
  simp only [prim_to_cons, ivStd_aux_cond_U, ivStd_irho]
  rw [if_pos ⟨h6, hk⟩, htn]

theorem c2p_std_rho (e : List String) (U : Arr) (γ : ℚ) (i j : ℕ) :
    (cons_to_prim U γ (ivStd e)).2 i j 0 =
      max (max (U i j 0) smallrho) smallrho := by
  simp only [cons_to_prim, ivStd_aux_cond_q, ivStd_idens, ivStd_ixmom, ivStd_iymom,
    ivStd_iener, ivStd_ixmag, ivStd_iymag, ivStd_irho, ivStd_iu, ivStd_iv, ivStd_ip,
    ivStd_ibx, ivStd_iby]
  norm_num

theorem c2p_std_u (e : List String) (U : Arr) (γ : ℚ) (i j : ℕ) :
    (cons_to_prim U γ (ivStd e)).2 i j 1 =
      U i j 1 / max (max (U i j 0) smallrho) smallrho := by
  simp only [cons_to_prim, ivStd_aux_cond_q, ivStd_idens, ivStd_ixmom, ivStd_iymom,
    ivStd_iener, ivStd_ixmag, ivStd_iymag, ivStd_irho, ivStd_iu, ivStd_iv, ivStd_ip,
    ivStd_ibx, ivStd_iby]
  norm_num

theorem c2p_std_v (e : List String) (U : Arr) (γ : ℚ) (i j : ℕ) :
    (cons_to_prim U γ (ivStd e)).2 i j 2 =
      U i j 2 / max (max (U i j 0) smallrho) smallrho := by
  simp only [cons_to_prim, ivStd_aux_cond_q, ivStd_idens, ivStd_ixmom, ivStd_iymom,
    ivStd_iener, ivStd_ixmag, ivStd_iymag, ivStd_irho, ivStd_iu, ivStd_iv, ivStd_ip,
    ivStd_ibx, ivStd_iby]
  norm_num

theorem c2p_std_p (e : List String) (U : Arr) (γ : ℚ) (i j : ℕ) :
    (cons_to_prim U γ (ivStd e)).2 i j 3 =
      max smallp (eosPres γ (max (max (U i j 0) smallrho) smallrho)
        ((U i j 3
            - 1 / 2 * max (max (U i j 0) smallrho) smallrho *
                ((U i j 1 / max (max (U i j 0) smallrho) smallrho) ^ 2 +
                 (U i j 2 / max (max (U i j 0) smallrho) smallrho) ^ 2)
            - 1 / 2 * ((U i j 4) ^ 2 + (U i j 5) ^ 2))
          / max (max (U i j 0) smallrho) smallrho)) := by
  simp only [cons_to_prim, ivStd_aux_cond_q, ivStd_idens, ivStd_ixmom, ivStd_iymom,
    ivStd_iener, ivStd_ixmag, ivStd_iymag, ivStd_irho, ivStd_iu, ivStd_iv, ivStd_ip,
    ivStd_ibx, ivStd_iby]
  norm_num

theorem c2p_std_bx (e : List String) (U : Arr) (γ : ℚ) (i j : ℕ) :
    (cons_to_prim U γ (ivStd e)).2 i j 4 = U i j 4 := by
  simp only [cons_to_prim, ivStd_aux_cond_q, ivStd_idens, ivStd_ixmom, ivStd_iymom,
    ivStd_iener, ivStd_ixmag, ivStd_iymag, ivStd_irho, ivStd_iu, ivStd_iv, ivStd_ip,
    ivStd_ibx, ivStd_iby]
  norm_num

theorem c2p_std_by (e : List String) (U : Arr) (γ : ℚ) (i j : ℕ) :
    (cons_to_prim U γ (ivStd e)).2 i j 5 = U i j 5 := by
  simp only [cons_to_prim, ivStd_aux_cond_q, ivStd_idens, ivStd_ixmom, ivStd_iymom,
    ivStd_iener, ivStd_ixmag, ivStd_iymag, ivStd_irho, ivStd_iu, ivStd_iv, ivStd_ip,
    ivStd_ibx, ivStd_iby]
  norm_num

theorem c2p_std_aux (e : List String) (U : Arr) (γ : ℚ) (i j k : ℕ)
    (h6 : 6 ≤ k) (hk : (k : ℤ) < 6 + e.length) :
    (cons_to_prim U γ (ivStd e)).2 i j k =
      U i j k / max (max (U i j 0) smallrho) smallrho := by
  have he : e ≠ [] := by
    intro h
    subst h
    simp only [List.length_nil, Nat.cast_zero] at hk
    omega
  have htn : ((ivStd e).irhox + ((k : ℤ) - (ivStd e).ix)).toNat = k := by
    rw [ivStd_ix e he, ivStd_irhox e he]
    omega
  simp only [cons_to_prim, ivStd_aux_cond_q, ivStd_idens]
  rw [if_pos ⟨h6, hk⟩, htn, if_neg (by omega : ¬ k = 0)]
  norm_num

/-- Cancellation of the gamma-law EOS pair: recovering `e` from an energy
formed with `eosRhoe` and feeding it to `eosPres` returns the pressure. -/
theorem eos_round_trip (gamma rho p a b : ℚ) (hρ : rho ≠ 0)
    (hγ : gamma - 1 ≠ 0) :
    eosPres gamma rho ((eosRhoe gamma p + a + b - a - b) / rho) = p := by
  rw [eosPres, eosRhoe]
  field_simp
  ring

/-! ### The conversion claims -/

/-- Claim C1: for a primitive state that is physically valid everywhere
(density and pressure strictly above the `1e-10` floor in every cell) and
a gamma with a genuine EOS inverse pair (`gamma ≠ 1`),
`cons_to_prim (prim_to_cons q)` returns `q` exactly, on every slot of the
primitive layout, for the standard registry with any auxiliary fields. -/
theorem claim_C1_round_trip (extras : List String) (gamma : ℚ) (hg : gamma ≠ 1)
    (q : Arr) (hrho : ∀ i j, smallrho < q i j 0) (hp : ∀ i j, smallp < q i j 3) :
    ∀ (i j k : ℕ), (k : ℤ) < (ivStd extras).nq →
      (cons_to_prim (prim_to_cons q gamma (ivStd extras)).2 gamma
          (ivStd extras)).2 i j k = q i j k := by
  intro i j k hk
  rw [ivStd_nq] at hk
  have hq0 : (0 : ℚ) < q i j 0 := lt_trans (by norm_num [smallrho]) (hrho i j)
  have hq0' : q i j 0 ≠ 0 := ne_of_gt hq0
  have hγ1 : gamma - 1 ≠ 0 := sub_ne_zero.mpr hg
  have hU0 : (prim_to_cons q gamma (ivStd extras)).2 i j 0 = q i j 0 := by
    rw [p2c_std_dens, max_eq_left (hrho i j).le]
  have hR : max (max ((prim_to_cons q gamma (ivStd extras)).2 i j 0) smallrho)
      smallrho = q i j 0 := by
    rw [hU0, max_eq_left (hrho i j).le, max_eq_left (hrho i j).le]
  rcases Nat.lt_or_ge k 6 with h6 | h6
  · interval_cases k
    · rw [c2p_std_rho, hR]
    · rw [c2p_std_u, hR, p2c_std_xmom, max_eq_left (hrho i j).le,
        mul_div_cancel_right₀ _ hq0']
    · rw [c2p_std_v, hR, p2c_std_ymom, max_eq_left (hrho i j).le,
        mul_div_cancel_right₀ _ hq0']
    · rw [c2p_std_p, hR, p2c_std_ener, p2c_std_xmom, p2c_std_ymom, p2c_std_xmag,
        p2c_std_ymag, max_eq_right (hp i j).le]
      simp only [max_eq_left (hrho i j).le, mul_div_cancel_right₀ _ hq0']
      rw [eos_round_trip gamma (q i j 0) (q i j 3) _ _ hq0' hγ1]
      exact max_eq_right (hp i j).le
    · rw [c2p_std_bx, p2c_std_xmag]
    · rw [c2p_std_by, p2c_std_ymag]
  · rw [c2p_std_aux extras ((prim_to_cons q gamma (ivStd extras)).2) gamma i j k
        h6 hk, hR, p2c_std_aux extras q gamma i j k h6 hk,
      mul_div_cancel_right₀ _ hq0']

/-- Witness for C1: the uniform valid state `qUnit` with one auxiliary
field and `gamma = 7/5`. -/
theorem claim_C1_round_trip_witness :
    ((7 : ℚ) / 5 ≠ 1) ∧ (∀ i j, smallrho < qUnit i j 0) ∧
    (∀ i j, smallp < qUnit i j 3) ∧
    ∀ (i j k : ℕ), (k : ℤ) < (ivStd ["fuel"]).nq →
      (cons_to_prim (prim_to_cons qUnit (7 / 5) (ivStd ["fuel"])).2 (7 / 5)
          (ivStd ["fuel"])).2 i j k = qUnit i j k := by
  have h1 : (7 : ℚ) / 5 ≠ 1 := by norm_num
  have h2 : ∀ i j, smallrho < qUnit i j 0 := by
    intro i j
    norm_num [qUnit, smallrho]
  have h3 : ∀ i j, smallp < qUnit i j 3 := by
    intro i j
    norm_num [qUnit, smallp]
  exact ⟨h1, h2, h3, claim_C1_round_trip ["fuel"] (7 / 5) h1 qUnit h2 h3⟩

/-- Claim C4 counterexample: with one auxiliary field, a primitive state
with density `0` (below the floor) and auxiliary scalar `1`, the conserved
auxiliary slot is `0 · 1 = 0`, not the auxiliary scalar times the floored
density stored in the conserved density slot (`1e-10`): line 117
multiplies by the raw `q[irho]`, not the clamped density. -/
theorem claim_C4_counterexample :
    ¬ ((prim_to_cons qZeroRho (7 / 5) (ivStd ["fuel"])).2 0 0 6 =
        qZeroRho 0 0 6 * (prim_to_cons qZeroRho (7 / 5) (ivStd ["fuel"])).2 0 0 0) := by
  have ha : (prim_to_cons qZeroRho (7 / 5) (ivStd ["fuel"])).2 0 0 6 = 0 := by
    rw [p2c_std_aux ["fuel"] qZeroRho (7 / 5) 0 0 6 (by norm_num) (by simp)]
    norm_num [qZeroRho]
  have hd : (prim_to_cons qZeroRho (7 / 5) (ivStd ["fuel"])).2 0 0 0 = smallrho := by
    rw [p2c_std_dens, show qZeroRho 0 0 0 = 0 from rfl, max_eq_right]
    norm_num [smallrho]
  rw [ha, hd]
  norm_num [qZeroRho, smallrho]

/-- Claim C4 as amended: each conserved auxiliary slot equals the
primitive auxiliary scalar multiplied by the raw (unclamped) primitive
density `q[irho]`. -/
theorem claim_C4_amended_aux_raw_density (extras : List String) (q : Arr)
    (γ : ℚ) (i j k : ℕ) (h6 : 6 ≤ k) (hk : (k : ℤ) < 6 + extras.length) :
    (prim_to_cons q γ (ivStd extras)).2 i j k = q i j k * q i j 0 :=
  p2c_std_aux extras q γ i j k h6 hk

/-- Witness for amended C4 at the first auxiliary slot. -/
theorem claim_C4_amended_aux_raw_density_witness :
    6 ≤ 6 ∧ (((6 : ℕ) : ℤ) < 6 + ((["fuel"] : List String).length : ℤ)) ∧
    (prim_to_cons qUnit (7 / 5) (ivStd ["fuel"])).2 0 0 6 =
      qUnit 0 0 6 * qUnit 0 0 0 :=
  ⟨by norm_num, by simp,
    claim_C4_amended_aux_raw_density ["fuel"] qUnit (7 / 5) 0 0 6 (by norm_num)
      (by simp)⟩

/-- Claim C5: both conversions floor their outputs — `cons_to_prim`
produces density `≥ 1e-10` and pressure `≥ 1e-10`; `prim_to_cons`
produces density `≥ 1e-10` and forms the energy from the pressure floored
at `1e-10`; and a conserved input density of `1e-15` yields a primitive
density of exactly `1e-10` with primitive pressure `≥ 1e-10`.  (Under the
exact-rational embedding no operation can produce a NaN/Inf.) -/
theorem claim_C5_flooring (extras : List String) (γ : ℚ) (U q : Arr) (i j : ℕ) :
    smallrho ≤ (cons_to_prim U γ (ivStd extras)).2 i j 0 ∧
    smallp ≤ (cons_to_prim U γ (ivStd extras)).2 i j 3 ∧
    smallrho ≤ (prim_to_cons q γ (ivStd extras)).2 i j 0 ∧
    ((prim_to_cons q γ (ivStd extras)).2 i j 3 =
        eosRhoe γ (max smallp (q i j 3))
          + 1 / 2 * q i j 0 * ((q i j 1) ^ 2 + (q i j 2) ^ 2)
          + 1 / 2 * ((q i j 4) ^ 2 + (q i j 5) ^ 2) ∧
      smallp ≤ max smallp (q i j 3)) ∧
    (U i j 0 = 1 / 10 ^ 15 →
      (cons_to_prim U γ (ivStd extras)).2 i j 0 = 1 / 10 ^ 10 ∧
      smallp ≤ (cons_to_prim U γ (ivStd extras)).2 i j 3) := by
  refine ⟨?_, ?_, ?_, ⟨p2c_std_ener extras q γ i j, le_max_left _ _⟩, ?_⟩
  · rw [c2p_std_rho]
    exact le_max_right _ _
  · rw [c2p_std_p]
    exact le_max_left _ _
  · rw [p2c_std_dens]
    exact le_max_right _ _
  · intro h
    constructor
    · rw [c2p_std_rho, h, max_eq_right (by norm_num [smallrho])]
      norm_num [smallrho]
    · rw [c2p_std_p]
      exact le_max_left _ _

/-- Witness for C5: the conserved state `UTiny` whose density is `1e-15`. -/
theorem claim_C5_flooring_witness :
    UTiny 0 0 0 = 1 / 10 ^ 15 ∧
    ((cons_to_prim UTiny (7 / 5) (ivStd ["fuel"])).2 0 0 0 = 1 / 10 ^ 10 ∧
     smallp ≤ (cons_to_prim UTiny (7 / 5) (ivStd ["fuel"])).2 0 0 3) :=
  ⟨rfl, (claim_C5_flooring ["fuel"] (7 / 5) UTiny qUnit 0 0).2.2.2.2 rfl⟩

/-- Claim C8: `cons_to_prim` clamps the density slot of the conserved
array `U` owned by the caller, in place — in the embedding, the first component of
the returned pair is the mutated `U`: its density slot holds
`max(density, 1e-10)` and every other slot is unchanged. -/
theorem claim_C8_inplace_density_clamp (U : Arr) (γ : ℚ) (ivars : Variables)
    (i j : ℕ) :
    (cons_to_prim U γ ivars).1 i j ivars.idens =
      max (U i j ivars.idens) smallrho ∧
    ∀ k : ℕ, k ≠ ivars.idens → (cons_to_prim U γ ivars).1 i j k = U i j k := by
  constructor
  · simp [cons_to_prim]
  · intro k hk
    simp [cons_to_prim, hk]

/-- Witness for C8 on `UTiny` with the standard registry. -/
theorem claim_C8_inplace_density_clamp_witness :
    (cons_to_prim UTiny (7 / 5) (ivStd [])).1 0 0 ((ivStd []).idens) =
      max (UTiny 0 0 ((ivStd []).idens)) smallrho ∧
    (1 : ℕ) ≠ (ivStd []).idens ∧
    (cons_to_prim UTiny (7 / 5) (ivStd [])).1 0 0 1 = UTiny 0 0 1 := by
  refine ⟨(claim_C8_inplace_density_clamp UTiny (7 / 5) (ivStd []) 0 0).1, ?_, ?_⟩
  · rw [ivStd_idens]
    norm_num
  · exact (claim_C8_inplace_density_clamp UTiny (7 / 5) (ivStd []) 0 0).2 1
      (by rw [ivStd_idens]; norm_num)

/-- Claim C10: `prim_to_cons` never writes to its input primitive array
`q` — in the embedding, the first component of the returned pair (the
array the caller holds after the call) is `q` itself, every slot of every cell
unchanged, with no validity assumption on densities or pressures. -/
theorem claim_C10_prim_input_unchanged (q : Arr) (γ : ℚ) (ivars : Variables) :
    ∀ i j k, (prim_to_cons q γ ivars).1 i j k = q i j k :=
  fun _ _ _ => rfl

end MHD
